import Mathlib

/-!
# Shallow embedding of the podio `ROOTReader`

The repository fragment provides `src/include/podio/ROOTReader.h`: the
interface declaration of the categorized-entry reader, its per-category
state (`CategoryInfo` with the cursor `unsigned entry{0}`), the registry
`m_categories`, and the recorded file version `m_fileVersion{0, 0, 0}`.
The member function bodies live in an implementation file that is not part
of the fragment, so the observable behaviour of the reader is modelled
from the specification's contracts (sections 4.1 to 4.5, 6 and 7 of the
spec) on top of the state layout declared in the header.
-/

namespace Podio

/-- `podio::version::Version`: a semantic version triple.  The header
declares `podio::version::Version m_fileVersion{0, 0, 0}`. -/
structure Version where
  major : Nat
  minor : Nat
  patch : Nat
deriving DecidableEq

/-- Raw column data of one collection at one entry (the contents of a
`CollectionReadBuffers`, abstracted to a sequence of words). -/
abbrev Buffer := List Nat

/-- Modelled from the spec: one entry's worth of raw data inside one
physical segment, i.e. the per-collection buffers (positionally aligned
with the descriptor list) and the entry-scoped key/value parameters
(`GenericParameters`). -/
structure EntryData where
  buffers : List Buffer := []
  params : List (String × String) := []
deriving DecidableEq

/-- Modelled from the spec: a segment is one physical file's contribution
to a chained logical entry space (spec glossary). -/
structure Segment where
  entries : List EntryData := []
deriving DecidableEq

/-- Modelled from the spec: the decoded, chained view of one category that
the storage backend plus metadata tree provide: the chained segments, the
declared collection names / subset flags / schema versions, and the
collection-ID table. -/
structure CategoryData where
  segments : List Segment := []
  collNames : List String := []
  subsetFlags : List Bool := []
  schemaVersions : List Nat := []
  idTable : List (String × Nat) := []
deriving DecidableEq

/-- Modelled from the spec: the abstract storage backend, mapping category
names to their chained data (spec section 2, StorageBackendAdapter). -/
structure Backend where
  categories : List (String × CategoryData) := []
deriving DecidableEq

end Podio

namespace Podio

/-- Association-list lookup by key (first match wins), used for the
category registry `m_categories` and the backend's category table. -/
def alookup {β : Type} : List (String × β) → String → Option β
  | [], _ => none
  | (k, v) :: rest, n => if k = n then some v else alookup rest n

/-- Association-list update: replace the binding for the key, or append a
fresh binding when the key is absent. -/
def aset {β : Type} : List (String × β) → String → β → List (String × β)
  | [], n, v => [(n, v)]
  | (k, w) :: rest, n, v =>
    if k = n then (k, v) :: rest else (k, w) :: aset rest n v

/-- Modelled from the spec: a CollectionDescriptor `(name, is-subset flag,
schema version, cache-slot index)` (spec section 3); the header's
`detail::CollectionInfo` tuple together with the collection name it is
stored under in `CategoryInfo::storedClasses`. -/
structure CollectionDescriptor where
  name : String
  isSubset : Bool
  schemaVersion : Nat
  slot : Nat
deriving DecidableEq

/-- Modelled from the spec: a resolved branch (column) handle, i.e. a
reference enabling reads of one collection's raw data for one segment
(spec glossary); design note section 9 represents a resolved cache slot as
`resolved(segment_id, handle)`, so a handle is identified by the segment it
was resolved for and the collection slot it serves. -/
structure Handle where
  seg : Nat
  coll : Nat
deriving DecidableEq

/-- `ROOTReader::CategoryInfo` (header lines 133 to 169): all the state
needed to read one category.  `initialized` models whether the `tree`
pointer is set (a `CategoryInfo` with an unset chain marks a category with
no data, header lines 178 to 183); `entry` is the next entry to read and
starts at 0 (`unsigned entry{0}`, header line 164); `storedClasses`,
`branches` and `table` model the stored collections, the branch cache and
the collection-ID table. -/
structure CategoryInfo where
  initialized : Bool := false
  entry : Nat := 0
  storedClasses : List CollectionDescriptor := []
  branches : List (Option Handle) := []
  table : List (String × Nat) := []
deriving DecidableEq

/-- The `CategoryInfo` produced for a category name with no matching tree:
default-constructed, uninitialized chain (header lines 178 to 183). -/
def uninitCategory : CategoryInfo := {}

/-- Error taxonomy of the reader core (spec section 7); absence conditions
are not errors and are represented by `Option` instead. -/
inductive ReaderError where
  | MetadataInconsistency
deriving DecidableEq

/-- Modelled from the spec: the SchemaAndMetadataDecoder (spec section
4.2).  Builds the ordered descriptor list from the declared collection
names, subset flags and schema versions; fails with
`MetadataInconsistency` when the number of declared collections does not
match the number of declared schema versions or subset flags. -/
def decodeMetadata (cd : CategoryData) : Except ReaderError (List CollectionDescriptor) :=
  if cd.collNames.length = cd.schemaVersions.length ∧
      cd.collNames.length = cd.subsetFlags.length then
    .ok ((List.range cd.collNames.length).map (fun i =>
      { name := cd.collNames.getD i ""
        isSubset := cd.subsetFlags.getD i false
        schemaVersion := cd.schemaVersions.getD i 0
        slot := i }))
  else
    .error .MetadataInconsistency

/-- Modelled from the spec: total entry count of a chained category is the
sum across all opened segments (spec section 4.5). -/
def entryCount (cd : CategoryData) : Nat :=
  (cd.segments.map (fun s => s.entries.length)).sum

/-- Modelled from the spec: translate a global entry index into the pair
(segment number, local entry index) of the physical file segment it falls
in; `none` past the end of the chained entry space (spec section 4.5). -/
def segOf : List Segment → Nat → Option (Nat × Nat)
  | [], _ => none
  | s :: rest, i =>
    if i < s.entries.length then some (0, i)
    else
      match segOf rest (i - s.entries.length) with
      | some (j, l) => some (j + 1, l)
      | none => none

/-- Modelled from the spec: resolving a fresh column handle from the
backend for segment `s` and collection slot `i` (spec section 4.3 step 3);
resolution is deterministic in the segment and the slot. -/
def resolveBranch (s i : Nat) : Handle := ⟨s, i⟩

/-- Modelled from the spec: the branch-cache read for slot `i` and the
current segment `s`: reuse the cached handle when it was resolved for the
current segment, otherwise (stale or unresolved slot) resolve a fresh one
(spec sections 3 and 4.3 steps 2 and 3). -/
def slotHandle (branches : List (Option Handle)) (s i : Nat) : Handle :=
  match branches.getD i none with
  | some h => if h.seg = s then h else resolveBranch s i
  | none => resolveBranch s i

/-- Modelled from the spec: read one collection's raw buffer through a
resolved handle at a local entry of its segment (StorageBackendAdapter). -/
def readBuffer (cd : CategoryData) (h : Handle) (localEntry : Nat) : Buffer :=
  (((cd.segments.getD h.seg {}).entries.getD localEntry {}).buffers).getD h.coll []

/-- `ROOTReader::readEntryParameters` (header line 188), modelled from the
spec: the entry-scoped key/value parameters, a per-entry side table keyed
by the same entry index (spec section 4.4). -/
def readEntryParameters (cd : CategoryData) (s localEntry : Nat) : List (String × String) :=
  ((cd.segments.getD s {}).entries.getD localEntry {}).params

/-- `podio::ROOTFrameData`: the assembled intermediate representation of
one entry: collection buffers, entry parameters and the collection-ID
table. -/
structure FrameData where
  buffers : List Buffer
  parameters : List (String × String)
  table : List (String × Nat)
deriving DecidableEq

/-- Modelled from the spec: `materialize_buffers` (spec section 4.3,
steps 2 to 5) plus parameter reading: locate the segment of the requested
global entry, mark slots resolved for a different segment stale,
resolve / reuse handles per slot, read every collection's buffer through
its handle, and return the assembled `FrameData` together with the updated
branch cache.  `none` when the entry is past the chained entry space. -/
def materializeBuffers (cd : CategoryData) (ci : CategoryInfo) (idx : Nat) :
    Option (FrameData × CategoryInfo) :=
  match segOf cd.segments idx with
  | none => none
  | some (s, localEntry) =>
    let handles := (List.range ci.storedClasses.length).map (fun i => slotHandle ci.branches s i)
    some ({ buffers := handles.map (fun h => readBuffer cd h localEntry)
            parameters := readEntryParameters cd s localEntry
            table := ci.table },
          { ci with branches := handles.map some })

/-- Modelled from the spec: the FrameAssembler's pure `build` contract
(spec section 4.4): the frame at a global entry index is determined by the
chained category data, the number of declared collections and the
collection-ID table alone — handles are freshly resolved for the entry's
segment.  `none` signals EndOfData. -/
def build (cd : CategoryData) (numColls : Nat) (table : List (String × Nat)) (idx : Nat) :
    Option FrameData :=
  match segOf cd.segments idx with
  | none => none
  | some (s, localEntry) =>
    some { buffers := (List.range numColls).map (fun i => readBuffer cd (resolveBranch s i) localEntry)
           parameters := readEntryParameters cd s localEntry
           table := table }

/-- `ROOTReader::readEntry(CategoryInfo&)` (header lines 190 to 195),
modelled from the spec: read the data entry at `idx` for this category and
increase the counter afterwards; when the requested entry is at or past
the available number of entries return `none` (EndOfData) and leave the
state untouched (spec section 4.3 step 1 and design note section 9:
EndOfData causes no transition). -/
def readEntryCat (cd : CategoryData) (ci : CategoryInfo) (idx : Nat) :
    Option FrameData × CategoryInfo :=
  if entryCount cd ≤ idx then (none, ci)
  else
    match materializeBuffers cd ci idx with
    | none => (none, ci)
    | some (fd, ci') => (some fd, { ci' with entry := idx + 1 })

/-- `podio::ROOTReader` (header lines 43 to 210): the backend view of the
opened file chain, the category registry `m_categories`, the available
category names and the recorded file version. -/
structure ROOTReader where
  backend : Backend := {}
  m_categories : List (String × CategoryInfo) := []
  m_availCategories : List String := []
  m_fileVersion : Version := ⟨0, 0, 0⟩
deriving DecidableEq

/-- A default-constructed `ROOTReader`, before any file, file list or
TDirectory has been opened: empty registry and
`m_fileVersion{0, 0, 0}` (header line 208). -/
def ROOTReader.init : ROOTReader := {}

/-- `ROOTReader::currentFileVersion` (header lines 105 to 107): returns
`m_fileVersion`. -/
def currentFileVersion (r : ROOTReader) : Version := r.m_fileVersion

/-- `ROOTReader::getEntries` (header line 102), modelled from the spec:
the number of entries for the given name, the sum across all opened
segments of the chained category (spec section 4.5); 0 when the name has
no data. -/
def entriesOf (b : Backend) (name : String) : Nat :=
  match alookup b.categories name with
  | some cd => entryCount cd
  | none => 0

/-- `ROOTReader::getEntries` on the reader itself. -/
def getEntries (r : ROOTReader) (name : String) : Nat :=
  entriesOf r.backend name

/-- `ROOTReader::initCategory` (header lines 171 to 176), modelled from
the spec: set up the collection descriptors, the empty branch cache and
the collection-ID table for a category from its decoded metadata (spec
sections 2 and 4.2); the decode happens exactly once per category. -/
def initCategory (cd : CategoryData) : Except ReaderError CategoryInfo :=
  match decodeMetadata cd with
  | .error e => .error e
  | .ok scs =>
    .ok { initialized := true
          entry := 0
          storedClasses := scs
          branches := List.replicate scs.length none
          table := cd.idTable }

/-- `ROOTReader::getCategoryInfo` (header lines 178 to 183), modelled from
the spec (section 4.1, `get_or_init`): return the registered state for the
name; on first access locate the category in the backend and initialize
state for it, or register a `CategoryInfo` with an uninitialized chain
when no tree with contents for the name exists.  A metadata decode
failure aborts without registering anything. -/
def getCategoryInfo (r : ROOTReader) (name : String) :
    Except ReaderError (CategoryInfo × ROOTReader) :=
  match alookup r.m_categories name with
  | some ci => .ok (ci, r)
  | none =>
    match alookup r.backend.categories name with
    | none =>
      .ok (uninitCategory, { r with m_categories := aset r.m_categories name uninitCategory })
    | some cd =>
      match initCategory cd with
      | .error e => .error e
      | .ok ci => .ok (ci, { r with m_categories := aset r.m_categories name ci })

/-- Modelled from the spec: the shared tail of both public reads: no tree
for the name yields a null result (header lines 87 to 99); otherwise read
entry `idx` through `readEntryCat` and store the updated category state
back into the registry. -/
def finishRead (r : ROOTReader) (name : String) (ci : CategoryInfo) (idx : Nat) :
    Except ReaderError (Option FrameData) × ROOTReader :=
  match alookup r.backend.categories name with
  | none => (.ok none, r)
  | some cd =>
    if ci.initialized then
      let p := readEntryCat cd ci idx
      (.ok p.1, { r with m_categories := aset r.m_categories name p.2 })
    else (.ok none, r)

/-- `ROOTReader::readNextEntry` (header lines 87 to 92), modelled from the
spec: read the next data entry for the given name, i.e. the entry at the
category's cursor; null when there are no more entries or no data for the
name. -/
def readNextEntry (r : ROOTReader) (name : String) :
    Except ReaderError (Option FrameData) × ROOTReader :=
  match getCategoryInfo r name with
  | .error e => (.error e, r)
  | .ok (ci, r') => finishRead r' name ci ci.entry

/-- `ROOTReader::readEntry` (header lines 94 to 99), modelled from the
spec (section 4.4): read the specified data entry for the given name; on
success the cursor becomes `idx + 1` so that a subsequent sequential read
continues from the requested point, and EndOfData causes no transition.
Null when the entry does not exist or there is no data for the name. -/
def readEntry (r : ROOTReader) (name : String) (idx : Nat) :
    Except ReaderError (Option FrameData) × ROOTReader :=
  match getCategoryInfo r name with
  | .error e => (.error e, r)
  | .ok (ci, r') => finishRead r' name ci idx

/-- `ROOTReader::getAvailableCategories` (header line 110). -/
def getAvailableCategories (r : ROOTReader) : List String := r.m_availCategories

/-- Modelled from the spec: one physical file's content for one category:
its entries (one future segment) and the category metadata recorded in
that file. -/
structure FileCategoryData where
  entries : List EntryData := []
  collNames : List String := []
  subsetFlags : List Bool := []
  schemaVersions : List Nat := []
  idTable : List (String × Nat) := []
deriving DecidableEq

/-- Modelled from the spec: the decoded content of one physical input
file: its recorded build version and its per-category data and metadata. -/
structure FileData where
  fileVersion : Version := ⟨0, 0, 0⟩
  categories : List (String × FileCategoryData) := []
deriving DecidableEq

/-- Modelled from the spec: chain several physical files into one logical
backend (spec section 4.5): the categories are the first file's ones, each
category's segments are the files' contributions in file order, and the
per-category metadata is read once, from the first file (all files are
assumed to share the same structure, header lines 60 to 74). -/
def chainFiles (files : List FileData) : Backend :=
  match files with
  | [] => {}
  | f :: _ =>
    { categories := f.categories.map (fun p =>
        (p.1, { segments := files.filterMap (fun g =>
                  (alookup g.categories p.1).map (fun h => ({ entries := h.entries } : Segment)))
                collNames := p.2.collNames
                subsetFlags := p.2.subsetFlags
                schemaVersions := p.2.schemaVersions
                idTable := p.2.idTable })) }

/-- `ROOTReader::openFiles` (header lines 60 to 74), modelled from the
spec: open multiple files and treat them as one file; the recorded file
version comes from the first opened file's metadata (spec section 3,
FileVersion), the registry starts empty. -/
def openFiles (files : List FileData) : ROOTReader :=
  { backend := chainFiles files
    m_categories := []
    m_availCategories := (chainFiles files).categories.map (fun p => p.1)
    m_fileVersion :=
      match files with
      | [] => ⟨0, 0, 0⟩
      | f :: _ => f.fileVersion }

/-- `ROOTReader::openFile` (header line 58): open a single file. -/
def openFile (f : FileData) : ROOTReader := openFiles [f]

/-- The cursor of a category as observable on the reader: the `entry`
member of its registered `CategoryInfo`, 0 before first registration
(`unsigned entry{0}`, header line 164). -/
def cursorOf (r : ROOTReader) (name : String) : Nat :=
  match alookup r.m_categories name with
  | some ci => ci.entry
  | none => 0

/-- Modelled from the spec: the pure frame-of-entry function the reads
refine: decode the category's metadata and build the frame at the index,
`.ok none` for an unknown category or an index past the end (spec
sections 4.4, 6 and 7). -/
def frameAt (b : Backend) (name : String) (idx : Nat) :
    Except ReaderError (Option FrameData) :=
  match alookup b.categories name with
  | none => .ok none
  | some cd =>
    match decodeMetadata cd with
    | .error e => .error e
    | .ok scs => .ok (if entryCount cd ≤ idx then none else build cd scs.length cd.idTable idx)

/-- A mutating operation on an opened reader: a sequential read or a
random-access read for some category. -/
inductive ReadOp where
  | nextOp (name : String)
  | atOp (name : String) (idx : Nat)
deriving DecidableEq

/-- The reader state after one read operation. -/
def applyOp (r : ROOTReader) : ReadOp → ROOTReader
  | .nextOp name => (readNextEntry r name).2
  | .atOp name idx => (readEntry r name idx).2

/-- The reader state after a sequence of read operations. -/
def applyOps (r : ROOTReader) (ops : List ReadOp) : ROOTReader :=
  ops.foldl applyOp r

/-- Iterated sequential reads: the list of results of `n` successive
`readNextEntry` calls for one name, with the final reader state. -/
def readNexts (r : ROOTReader) (name : String) : Nat → List (Except ReaderError (Option FrameData)) × ROOTReader
  | 0 => ([], r)
  | n + 1 =>
    let p := readNextEntry r name
    let q := readNexts p.2 name n
    (p.1 :: q.1, q.2)

/-- A cache slot is well formed when the handle it holds serves the slot
it sits in (design note section 9: a resolved slot is
`resolved(segment_id, handle)` for that slot). -/
def slotOK (i : Nat) : Option Handle → Bool
  | none => true
  | some h => decide (h.coll = i)

/-- A branch cache is well formed when every resolved slot holds a handle
for that slot. -/
def cacheWF (branches : List (Option Handle)) : Bool :=
  (List.range branches.length).all (fun i => slotOK i (branches.getD i none))

/-- A registered `CategoryInfo` is well formed for its backend: a name
with no tree carries the default-constructed state, and a name with data
carries exactly the decoded descriptors, the category's collection-ID
table and a well-formed branch cache. -/
def catWF (b : Backend) (name : String) (ci : CategoryInfo) : Bool :=
  match alookup b.categories name with
  | none => decide (ci.initialized = false) && decide (ci.storedClasses = []) && cacheWF ci.branches
  | some cd =>
    match decodeMetadata cd with
    | .error _ => false
    | .ok scs =>
      ci.initialized && decide (ci.storedClasses = scs) &&
        decide (ci.table = cd.idTable) && cacheWF ci.branches

/-- A reader is well formed when every registered category state is well
formed for its backend.  Freshly opened readers are well formed (empty
registry) and every read preserves this. -/
def readerWF (r : ROOTReader) : Bool :=
  r.m_categories.all (fun p => catWF r.backend p.1 p.2)

/-- Whether the metadata of a category decodes without a
`MetadataInconsistency` (vacuously true for a name with no data). -/
def metaOk (b : Backend) (name : String) : Bool :=
  match alookup b.categories name with
  | none => true
  | some cd =>
    match decodeMetadata cd with
    | .ok _ => true
    | .error _ => false

/-- Equality of `Except` values is decidable componentwise. -/
def exceptDecEq {ε α : Type} [DecidableEq ε] [DecidableEq α] :
    (a b : Except ε α) → Decidable (a = b)
  | .ok a, .ok b =>
    if h : a = b then .isTrue (by rw [h])
    else .isFalse (fun he => h (Except.ok.inj he))
  | .ok _, .error _ => .isFalse (fun he => Except.noConfusion he)
  | .error _, .ok _ => .isFalse (fun he => Except.noConfusion he)
  | .error e, .error f =>
    if h : e = f then .isTrue (by rw [h])
    else .isFalse (fun he => h (Except.error.inj he))

instance {ε α : Type} [DecidableEq ε] [DecidableEq α] : DecidableEq (Except ε α) :=
  exceptDecEq

/-- A concrete entry for tests: two collections whose buffers carry the
tag, so different entries are distinguishable. -/
def mkEntry (tag : Nat) : EntryData :=
  { buffers := [[tag], [tag, tag]], params := [("tag", toString tag)] }

/-- A concrete first input file: category `events` with three entries and
two collections, plus a category `empty` with no entries. -/
def fileOne : FileData :=
  { fileVersion := ⟨1, 2, 3⟩
    categories :=
      [("events",
        { entries := [mkEntry 0, mkEntry 1, mkEntry 2]
          collNames := ["hits", "tracks"]
          subsetFlags := [false, true]
          schemaVersions := [2, 1]
          idTable := [("hits", 1), ("tracks", 2)] }),
       ("empty",
        { entries := []
          collNames := []
          subsetFlags := []
          schemaVersions := []
          idTable := [] })] }

/-- A concrete second input file with the same structure as `fileOne`:
category `events` with two further entries. -/
def fileTwo : FileData :=
  { fileVersion := ⟨1, 2, 3⟩
    categories :=
      [("events",
        { entries := [mkEntry 3, mkEntry 4]
          collNames := ["hits", "tracks"]
          subsetFlags := [false, true]
          schemaVersions := [2, 1]
          idTable := [("hits", 1), ("tracks", 2)] }),
       ("empty",
        { entries := []
          collNames := []
          subsetFlags := []
          schemaVersions := []
          idTable := [] })] }

/-- The chained view of the category `events` after opening `fileOne` and
`fileTwo` together. -/
def eventsChained : CategoryData :=
  { segments := [{ entries := [mkEntry 0, mkEntry 1, mkEntry 2] },
                 { entries := [mkEntry 3, mkEntry 4] }]
    collNames := ["hits", "tracks"]
    subsetFlags := [false, true]
    schemaVersions := [2, 1]
    idTable := [("hits", 1), ("tracks", 2)] }

/-- A concrete corrupt input file: category `broken` declares two
collections but only one subset flag and one schema version. -/
def badFile : FileData :=
  { fileVersion := ⟨1, 2, 3⟩
    categories :=
      [("broken",
        { entries := [mkEntry 9]
          collNames := ["a", "b"]
          subsetFlags := [false]
          schemaVersions := [7]
          idTable := [] })] }

theorem alookup_mem {β : Type} {l : List (String × β)} {n : String} {v : β}
    (h : alookup l n = some v) : (n, v) ∈ l := by
  induction l with
  | nil => simp [alookup] at h
  | cons p rest ih =>
    obtain ⟨k, w⟩ := p
    simp only [alookup] at h
    split at h
    · next heq =>
      cases h
      subst heq
      exact List.mem_cons_self _ _
    · exact List.mem_cons_of_mem _ (ih h)

theorem alookup_aset_self {β : Type} (l : List (String × β)) (n : String) (v : β) :
    alookup (aset l n v) n = some v := by
  induction l with
  | nil => simp [aset, alookup]
  | cons p rest ih =>
    obtain ⟨k, w⟩ := p
    by_cases hk : k = n
    · simp [aset, alookup, hk]
    · simp [aset, alookup, hk, ih]

theorem alookup_aset_ne {β : Type} (l : List (String × β)) {n d : String} (v : β)
    (hd : d ≠ n) : alookup (aset l n v) d = alookup l d := by
  induction l with
  | nil =>
    simp only [aset, alookup]
    rw [if_neg (fun h => hd h.symm)]
  | cons p rest ih =>
    obtain ⟨k, w⟩ := p
    by_cases hk : k = n
    · subst hk
      simp only [aset, if_pos rfl, alookup]
      rw [if_neg (fun h => hd h.symm), if_neg (fun h => hd h.symm)]
    · simp only [aset, if_neg hk, alookup]
      by_cases hkd : k = d
      · rw [if_pos hkd, if_pos hkd]
      · rw [if_neg hkd, if_neg hkd, ih]

theorem all_aset {β : Type} (p : String × β → Bool) (l : List (String × β)) (n : String)
    (v : β) (hall : l.all p = true) (hv : p (n, v) = true) :
    (aset l n v).all p = true := by
  induction l with
  | nil => simp [aset, hv]
  | cons q rest ih =>
    obtain ⟨k, w⟩ := q
    simp only [List.all_cons, Bool.and_eq_true] at hall
    by_cases hk : k = n
    · subst hk
      simp [aset, hv, hall.2]
    · simp [aset, hk, hall.1, ih hall.2]

theorem getD_range_map {α : Type} (f : Nat → α) (d : α) (n i : Nat) :
    ((List.range n).map f).getD i d = if i < n then f i else d := by
  by_cases h : i < n
  · rw [List.getD_eq_getElem _ _ (by simpa using h)]
    simp [h]
  · rw [List.getD_eq_default _ _ (by simpa using Nat.le_of_not_lt h)]
    simp [h]

theorem cacheWF_getD {br : List (Option Handle)} (hwf : cacheWF br = true)
    {i : Nat} {h : Handle} (hget : br.getD i none = some h) : h.coll = i := by
  by_cases hi : i < br.length
  · have := (List.all_eq_true.mp hwf) i (List.mem_range.mpr hi)
    rw [hget] at this
    simpa [slotOK] using this
  · rw [List.getD_eq_default _ _ (Nat.le_of_not_lt hi)] at hget
    cases hget

theorem slotHandle_of_wf {br : List (Option Handle)} (hwf : cacheWF br = true)
    (s i : Nat) : slotHandle br s i = resolveBranch s i := by
  unfold slotHandle
  cases hget : br.getD i none with
  | none => rfl
  | some h =>
    have hcoll : h.coll = i := cacheWF_getD hwf hget
    show (if h.seg = s then h else resolveBranch s i) = resolveBranch s i
    by_cases hs : h.seg = s
    · rw [if_pos hs]
      cases h
      simp only at hcoll hs
      rw [hcoll, hs]
      rfl
    · rw [if_neg hs]

theorem cacheWF_replicate (n : Nat) : cacheWF (List.replicate n none) = true := by
  unfold cacheWF
  rw [List.all_eq_true]
  intro i hi
  cases hget : (List.replicate (α := Option Handle) n none).getD i none with
  | none => simp [slotOK, hget]
  | some h =>
    exfalso
    by_cases hlt : i < n
    · rw [List.getD_eq_getElem _ _ (by simpa using hlt)] at hget
      simp at hget
    · rw [List.getD_eq_default _ _ (by simpa using Nat.le_of_not_lt hlt)] at hget
      cases hget

theorem cacheWF_resolved (s n : Nat) :
    cacheWF ((List.range n).map (fun i => some (resolveBranch s i))) = true := by
  unfold cacheWF
  rw [List.all_eq_true]
  intro i hi
  rw [List.length_map, List.length_range] at hi
  have hi' : i < n := List.mem_range.mp hi
  rw [getD_range_map, if_pos hi']
  simp [slotOK, resolveBranch]

theorem handles_of_wf {br : List (Option Handle)} (hwf : cacheWF br = true)
    (s n : Nat) :
    (List.range n).map (fun i => slotHandle br s i) =
      (List.range n).map (fun i => resolveBranch s i) :=
  List.map_congr_left (fun i _ => slotHandle_of_wf hwf s i)

theorem segOf_eq_none_iff (segs : List Segment) (i : Nat) :
    segOf segs i = none ↔ (segs.map (fun s => s.entries.length)).sum ≤ i := by
  induction segs generalizing i with
  | nil => simp [segOf]
  | cons s rest ih =>
    simp only [segOf, List.map_cons, List.sum_cons]
    by_cases hlt : i < s.entries.length
    · rw [if_pos hlt]
      constructor
      · intro h
        cases h
      · intro h
        omega
    · rw [if_neg hlt]
      cases hrec : segOf rest (i - s.entries.length) with
      | none =>
        have hrest := (ih (i - s.entries.length)).mp hrec
        constructor
        · intro _
          omega
        · intro _
          rfl
      | some p =>
        obtain ⟨j, l⟩ := p
        constructor
        · intro h
          cases h
        · intro h
          exfalso
          have hsum : (rest.map (fun s => s.entries.length)).sum ≤ i - s.entries.length := by
            omega
          rw [(ih _).mpr hsum] at hrec
          cases hrec

theorem segOf_isSome_of_lt {cd : CategoryData} {i : Nat} (h : i < entryCount cd) :
    ∃ s l, segOf cd.segments i = some (s, l) := by
  cases hseg : segOf cd.segments i with
  | none =>
    exfalso
    have := (segOf_eq_none_iff _ _).mp hseg
    unfold entryCount at h
    omega
  | some p => exact ⟨p.1, p.2, by cases p; rfl⟩

theorem build_of_seg {cd : CategoryData} {idx s l : Nat} (n : Nat) (table : List (String × Nat))
    (hseg : segOf cd.segments idx = some (s, l)) :
    build cd n table idx =
      some { buffers := (List.range n).map (fun i => readBuffer cd (resolveBranch s i) l)
             parameters := readEntryParameters cd s l
             table := table } := by
  unfold build
  rw [hseg]

theorem materializeBuffers_of_wf {cd : CategoryData} {ci : CategoryInfo} {idx s l : Nat}
    (hwf : cacheWF ci.branches = true) (hseg : segOf cd.segments idx = some (s, l)) :
    materializeBuffers cd ci idx =
      some ({ buffers := (List.range ci.storedClasses.length).map
                (fun i => readBuffer cd (resolveBranch s i) l)
              parameters := readEntryParameters cd s l
              table := ci.table },
            { ci with branches := (List.range ci.storedClasses.length).map
                          (fun i => some (resolveBranch s i)) }) := by
  unfold materializeBuffers
  rw [hseg]
  show some (_, _) = _
  rw [handles_of_wf hwf]
  simp [List.map_map, Function.comp_def]

theorem readEntryCat_of_wf (cd : CategoryData) (ci : CategoryInfo) (idx : Nat)
    (hwf : cacheWF ci.branches = true) :
    (readEntryCat cd ci idx).1 =
      (if entryCount cd ≤ idx then none else build cd ci.storedClasses.length ci.table idx) ∧
    (readEntryCat cd ci idx).2.initialized = ci.initialized ∧
    (readEntryCat cd ci idx).2.storedClasses = ci.storedClasses ∧
    (readEntryCat cd ci idx).2.table = ci.table ∧
    cacheWF (readEntryCat cd ci idx).2.branches = true ∧
    (readEntryCat cd ci idx).2.entry =
      (match (readEntryCat cd ci idx).1 with
       | some _ => idx + 1
       | none => ci.entry) := by
  unfold readEntryCat
  by_cases hle : entryCount cd ≤ idx
  · rw [if_pos hle]
    exact ⟨by rw [if_pos hle], rfl, rfl, rfl, hwf, rfl⟩
  · rw [if_neg hle]
    obtain ⟨s, l, hseg⟩ := segOf_isSome_of_lt (Nat.lt_of_not_le hle)
    rw [materializeBuffers_of_wf hwf hseg]
    refine ⟨?_, rfl, rfl, rfl, ?_, rfl⟩
    · rw [if_neg hle, build_of_seg _ _ hseg]
    · exact cacheWF_resolved s ci.storedClasses.length

theorem getCategoryInfo_ok {r : ROOTReader} {name : String} {ci : CategoryInfo}
    {r' : ROOTReader} (hwf : readerWF r = true)
    (h : getCategoryInfo r name = .ok (ci, r')) :
    catWF r.backend name ci = true ∧
    r'.backend = r.backend ∧
    r'.m_fileVersion = r.m_fileVersion ∧
    readerWF r' = true ∧
    alookup r'.m_categories name = some ci ∧
    ci.entry = cursorOf r name ∧
    (∀ d, d ≠ name → alookup r'.m_categories d = alookup r.m_categories d) := by
  unfold getCategoryInfo at h
  cases hm : alookup r.m_categories name with
  | some ci0 =>
    rw [hm] at h
    cases h
    refine ⟨?_, rfl, rfl, hwf, hm, ?_, fun d _ => rfl⟩
    · exact List.all_eq_true.mp hwf _ (alookup_mem hm)
    · unfold cursorOf
      rw [hm]
  | none =>
    rw [hm] at h
    cases hb : alookup r.backend.categories name with
    | none =>
      rw [hb] at h
      cases h
      have hci : catWF r.backend name uninitCategory = true := by
        unfold catWF
        rw [hb]
        rfl
      refine ⟨hci, rfl, rfl, ?_, ?_, ?_, ?_⟩
      · exact all_aset _ _ _ _ hwf hci
      · exact alookup_aset_self _ _ _
      · unfold cursorOf
        rw [hm]
        rfl
      · intro d hd
        exact alookup_aset_ne _ _ hd
    | some cd =>
      rw [hb] at h
      dsimp only at h
      unfold initCategory at h
      cases hd : decodeMetadata cd with
      | error e =>
        rw [hd] at h
        cases h
      | ok scs =>
        rw [hd] at h
        dsimp only at h
        cases h
        have hci : catWF r.backend name
            { initialized := true, entry := 0, storedClasses := scs,
              branches := List.replicate scs.length none, table := cd.idTable } = true := by
          unfold catWF
          rw [hb]
          dsimp only
          rw [hd]
          dsimp only
          simp [cacheWF_replicate]
        refine ⟨hci, rfl, rfl, ?_, ?_, ?_, ?_⟩
        · exact all_aset _ _ _ _ hwf hci
        · exact alookup_aset_self _ _ _
        · unfold cursorOf
          rw [hm]
        · intro d hd'
          exact alookup_aset_ne _ _ hd'

theorem getCategoryInfo_error {r : ROOTReader} {name : String} {e : ReaderError}
    (h : getCategoryInfo r name = .error e) :
    alookup r.m_categories name = none ∧
    ∃ cd, alookup r.backend.categories name = some cd ∧ decodeMetadata cd = .error e := by
  unfold getCategoryInfo at h
  cases hm : alookup r.m_categories name with
  | some ci0 =>
    rw [hm] at h
    cases h
  | none =>
    rw [hm] at h
    cases hb : alookup r.backend.categories name with
    | none =>
      rw [hb] at h
      cases h
    | some cd =>
      rw [hb] at h
      dsimp only at h
      unfold initCategory at h
      cases hd : decodeMetadata cd with
      | error e' =>
        rw [hd] at h
        dsimp only at h
        cases h
        exact ⟨rfl, cd, rfl, hd⟩
      | ok scs =>
        rw [hd] at h
        dsimp only at h
        cases h

theorem finishRead_correct (r : ROOTReader) (name : String) (ci : CategoryInfo) (idx : Nat)
    (hwf : readerWF r = true) (hci : catWF r.backend name ci = true)
    (hmem : alookup r.m_categories name = some ci) :
    (finishRead r name ci idx).1 = frameAt r.backend name idx ∧
    readerWF (finishRead r name ci idx).2 = true ∧
    (finishRead r name ci idx).2.backend = r.backend ∧
    (finishRead r name ci idx).2.m_fileVersion = r.m_fileVersion ∧
    cursorOf (finishRead r name ci idx).2 name =
      (match frameAt r.backend name idx with
       | .ok (some _) => idx + 1
       | _ => ci.entry) ∧
    (∀ d, d ≠ name → alookup (finishRead r name ci idx).2.m_categories d = alookup r.m_categories d) := by
  unfold finishRead
  cases hb : alookup r.backend.categories name with
  | none =>
    dsimp only
    have hframe : frameAt r.backend name idx = .ok none := by
      unfold frameAt
      rw [hb]
    refine ⟨hframe.symm, hwf, rfl, rfl, ?_, fun d _ => rfl⟩
    rw [hframe]
    unfold cursorOf
    rw [hmem]
  | some cd =>
    unfold catWF at hci
    rw [hb] at hci
    dsimp only at hci
    cases hd : decodeMetadata cd with
    | error e =>
      rw [hd] at hci
      dsimp only at hci
      cases hci
    | ok scs =>
      rw [hd] at hci
      dsimp only at hci
      simp only [Bool.and_eq_true, decide_eq_true_eq] at hci
      obtain ⟨⟨⟨hinit, hsc⟩, htab⟩, hcache⟩ := hci
      dsimp only
      rw [if_pos hinit]
      obtain ⟨hres, hinit', hsc', htab', hcache', hentry⟩ :=
        readEntryCat_of_wf cd ci idx hcache
      have hframe : frameAt r.backend name idx = .ok (readEntryCat cd ci idx).1 := by
        unfold frameAt
        rw [hb]
        dsimp only
        rw [hd]
        dsimp only
        rw [hres, hsc, htab]
      have hciWF : catWF r.backend name (readEntryCat cd ci idx).2 = true := by
        unfold catWF
        rw [hb]
        dsimp only
        rw [hd]
        dsimp only
        rw [hinit', hsc', htab', hinit, hsc, htab]
        simp [hcache']
      refine ⟨hframe.symm, ?_, rfl, rfl, ?_, ?_⟩
      · exact all_aset _ _ _ _ hwf hciWF
      · rw [hframe]
        unfold cursorOf
        rw [alookup_aset_self]
        show (readEntryCat cd ci idx).2.entry = _
        rw [hentry]
        cases (readEntryCat cd ci idx).1 with
        | none => rfl
        | some fd => rfl
      · intro d hd'
        exact alookup_aset_ne _ _ hd'

theorem readNextEntry_correct {r : ROOTReader} (name : String) (hwf : readerWF r = true) :
    (readNextEntry r name).1 = frameAt r.backend name (cursorOf r name) ∧
    readerWF (readNextEntry r name).2 = true ∧
    (readNextEntry r name).2.backend = r.backend ∧
    (readNextEntry r name).2.m_fileVersion = r.m_fileVersion ∧
    cursorOf (readNextEntry r name).2 name =
      (match (readNextEntry r name).1 with
       | .ok (some _) => cursorOf r name + 1
       | _ => cursorOf r name) ∧
    (∀ d, d ≠ name → alookup (readNextEntry r name).2.m_categories d = alookup r.m_categories d) := by
  unfold readNextEntry
  cases hg : getCategoryInfo r name with
  | error e =>
    obtain ⟨hm, cd, hb, hd⟩ := getCategoryInfo_error hg
    have hframe : frameAt r.backend name (cursorOf r name) = .error e := by
      unfold frameAt
      rw [hb]
      dsimp only
      rw [hd]
    dsimp only
    exact ⟨hframe.symm, hwf, rfl, rfl, rfl, fun d _ => rfl⟩
  | ok p =>
    obtain ⟨ci, r'⟩ := p
    obtain ⟨hci, hback, hver, hwf', hmem', hentry, hother⟩ := getCategoryInfo_ok hwf hg
    obtain ⟨f1, f2, f3, f4, f5, f6⟩ :=
      finishRead_correct r' name ci ci.entry hwf'
        (by rw [hback]; exact hci) hmem'
    dsimp only
    refine ⟨?_, f2, f3.trans hback, f4.trans hver, ?_, ?_⟩
    · rw [f1, hback, hentry]
    · rw [f5, f1]
      rw [hentry]
    · intro d hd'
      exact (f6 d hd').trans (hother d hd')

theorem readEntry_correct {r : ROOTReader} (name : String) (idx : Nat)
    (hwf : readerWF r = true) :
    (readEntry r name idx).1 = frameAt r.backend name idx ∧
    readerWF (readEntry r name idx).2 = true ∧
    (readEntry r name idx).2.backend = r.backend ∧
    (readEntry r name idx).2.m_fileVersion = r.m_fileVersion ∧
    cursorOf (readEntry r name idx).2 name =
      (match (readEntry r name idx).1 with
       | .ok (some _) => idx + 1
       | _ => cursorOf r name) ∧
    (∀ d, d ≠ name → alookup (readEntry r name idx).2.m_categories d = alookup r.m_categories d) := by
  unfold readEntry
  cases hg : getCategoryInfo r name with
  | error e =>
    obtain ⟨hm, cd, hb, hd⟩ := getCategoryInfo_error hg
    have hframe : frameAt r.backend name idx = .error e := by
      unfold frameAt
      rw [hb]
      dsimp only
      rw [hd]
    dsimp only
    exact ⟨hframe.symm, hwf, rfl, rfl, rfl, fun d _ => rfl⟩
  | ok p =>
    obtain ⟨ci, r'⟩ := p
    obtain ⟨hci, hback, hver, hwf', hmem', hentry, hother⟩ := getCategoryInfo_ok hwf hg
    obtain ⟨f1, f2, f3, f4, f5, f6⟩ :=
      finishRead_correct r' name ci idx hwf'
        (by rw [hback]; exact hci) hmem'
    dsimp only
    refine ⟨?_, f2, f3.trans hback, f4.trans hver, ?_, ?_⟩
    · rw [f1, hback]
    · rw [f5, f1]
      rw [hentry]
    · intro d hd'
      exact (f6 d hd').trans (hother d hd')

theorem getCategoryInfo_basic {r : ROOTReader} {name : String} {ci : CategoryInfo}
    {r' : ROOTReader} (h : getCategoryInfo r name = .ok (ci, r')) :
    r'.backend = r.backend ∧ r'.m_fileVersion = r.m_fileVersion ∧
    r'.m_availCategories = r.m_availCategories ∧
    alookup r'.m_categories name = some ci ∧ ci.entry = cursorOf r name := by
  unfold getCategoryInfo at h
  cases hm : alookup r.m_categories name with
  | some ci0 =>
    rw [hm] at h
    cases h
    refine ⟨rfl, rfl, rfl, hm, ?_⟩
    unfold cursorOf
    rw [hm]
  | none =>
    rw [hm] at h
    cases hb : alookup r.backend.categories name with
    | none =>
      rw [hb] at h
      cases h
      refine ⟨rfl, rfl, rfl, alookup_aset_self _ _ _, ?_⟩
      unfold cursorOf
      rw [hm]
      rfl
    | some cd =>
      rw [hb] at h
      dsimp only at h
      unfold initCategory at h
      cases hd : decodeMetadata cd with
      | error e =>
        rw [hd] at h
        cases h
      | ok scs =>
        rw [hd] at h
        dsimp only at h
        cases h
        refine ⟨rfl, rfl, rfl, alookup_aset_self _ _ _, ?_⟩
        unfold cursorOf
        rw [hm]

theorem readEntryCat_entry (cd : CategoryData) (ci : CategoryInfo) (idx : Nat) :
    (readEntryCat cd ci idx).2.entry = ci.entry ∨
    (readEntryCat cd ci idx).2.entry = idx + 1 := by
  unfold readEntryCat
  by_cases hle : entryCount cd ≤ idx
  · rw [if_pos hle]
    exact Or.inl rfl
  · rw [if_neg hle]
    cases hmat : materializeBuffers cd ci idx with
    | none => exact Or.inl rfl
    | some p =>
      obtain ⟨fd, ci'⟩ := p
      exact Or.inr rfl

theorem finishRead_state (r : ROOTReader) (name : String) (ci : CategoryInfo) (idx : Nat) :
    (finishRead r name ci idx).2.backend = r.backend ∧
    (finishRead r name ci idx).2.m_fileVersion = r.m_fileVersion ∧
    (finishRead r name ci idx).2.m_availCategories = r.m_availCategories := by
  unfold finishRead
  cases hb : alookup r.backend.categories name with
  | none => exact ⟨rfl, rfl, rfl⟩
  | some cd =>
    dsimp only
    by_cases hinit : ci.initialized = true
    · rw [if_pos hinit]
      exact ⟨rfl, rfl, rfl⟩
    · rw [if_neg hinit]
      exact ⟨rfl, rfl, rfl⟩

theorem finishRead_cursor {r : ROOTReader} {name : String} {ci : CategoryInfo} (idx : Nat)
    (hmem : alookup r.m_categories name = some ci) :
    cursorOf (finishRead r name ci idx).2 name = ci.entry ∨
    cursorOf (finishRead r name ci idx).2 name = idx + 1 := by
  have hcur : cursorOf r name = ci.entry := by
    unfold cursorOf
    rw [hmem]
  unfold finishRead
  cases hb : alookup r.backend.categories name with
  | none => exact Or.inl hcur
  | some cd =>
    dsimp only
    by_cases hinit : ci.initialized = true
    · rw [if_pos hinit]
      have haset : cursorOf { r with
          m_categories := aset r.m_categories name (readEntryCat cd ci idx).2 } name =
          (readEntryCat cd ci idx).2.entry := by
        unfold cursorOf
        rw [alookup_aset_self]
      rw [haset]
      exact readEntryCat_entry cd ci idx
    · rw [if_neg hinit]
      exact Or.inl hcur

theorem readNextEntry_state (r : ROOTReader) (name : String) :
    (readNextEntry r name).2.backend = r.backend ∧
    (readNextEntry r name).2.m_fileVersion = r.m_fileVersion ∧
    (readNextEntry r name).2.m_availCategories = r.m_availCategories ∧
    cursorOf r name ≤ cursorOf (readNextEntry r name).2 name := by
  unfold readNextEntry
  cases hg : getCategoryInfo r name with
  | error e => exact ⟨rfl, rfl, rfl, Nat.le_refl _⟩
  | ok p =>
    obtain ⟨ci, r'⟩ := p
    obtain ⟨hback, hver, havail, hmem', hentry⟩ := getCategoryInfo_basic hg
    obtain ⟨s1, s2, s3⟩ := finishRead_state r' name ci ci.entry
    dsimp only
    refine ⟨s1.trans hback, s2.trans hver, s3.trans havail, ?_⟩
    rcases finishRead_cursor (r := r') ci.entry hmem' with h | h
    · rw [h, ← hentry]
    · rw [h, ← hentry]
      exact Nat.le_succ _

theorem readEntry_state (r : ROOTReader) (name : String) (idx : Nat) :
    (readEntry r name idx).2.backend = r.backend ∧
    (readEntry r name idx).2.m_fileVersion = r.m_fileVersion ∧
    (readEntry r name idx).2.m_availCategories = r.m_availCategories := by
  unfold readEntry
  cases hg : getCategoryInfo r name with
  | error e => exact ⟨rfl, rfl, rfl⟩
  | ok p =>
    obtain ⟨ci, r'⟩ := p
    obtain ⟨hback, hver, havail, _, _⟩ := getCategoryInfo_basic hg
    obtain ⟨s1, s2, s3⟩ := finishRead_state r' name ci idx
    dsimp only
    exact ⟨s1.trans hback, s2.trans hver, s3.trans havail⟩

theorem applyOp_state (r : ROOTReader) (op : ReadOp) :
    (applyOp r op).backend = r.backend ∧
    (applyOp r op).m_fileVersion = r.m_fileVersion ∧
    (applyOp r op).m_availCategories = r.m_availCategories := by
  cases op with
  | nextOp name =>
    obtain ⟨h1, h2, h3, _⟩ := readNextEntry_state r name
    exact ⟨h1, h2, h3⟩
  | atOp name idx => exact readEntry_state r name idx

theorem applyOps_state (ops : List ReadOp) :
    ∀ r : ROOTReader, (applyOps r ops).backend = r.backend ∧
      (applyOps r ops).m_fileVersion = r.m_fileVersion ∧
      (applyOps r ops).m_availCategories = r.m_availCategories := by
  induction ops with
  | nil => exact fun r => ⟨rfl, rfl, rfl⟩
  | cons op rest ih =>
    intro r
    obtain ⟨h1, h2, h3⟩ := applyOp_state r op
    obtain ⟨g1, g2, g3⟩ := ih (applyOp r op)
    exact ⟨g1.trans h1, g2.trans h2, g3.trans h3⟩

theorem applyOp_wf {r : ROOTReader} (op : ReadOp) (hwf : readerWF r = true) :
    readerWF (applyOp r op) = true := by
  cases op with
  | nextOp name => exact (readNextEntry_correct name hwf).2.1
  | atOp name idx => exact (readEntry_correct name idx hwf).2.1

theorem applyOps_wf (ops : List ReadOp) :
    ∀ r : ROOTReader, readerWF r = true → readerWF (applyOps r ops) = true := by
  induction ops with
  | nil => exact fun r h => h
  | cons op rest ih => exact fun r h => ih (applyOp r op) (applyOp_wf op h)

theorem frameAt_ok_none {b : Backend} {name : String} {idx : Nat}
    (hmeta : metaOk b name = true) (hge : entriesOf b name ≤ idx) :
    frameAt b name idx = .ok none := by
  unfold metaOk at hmeta
  unfold entriesOf at hge
  unfold frameAt
  cases hb : alookup b.categories name with
  | none => rfl
  | some cd =>
    rw [hb] at hmeta hge
    dsimp only at hmeta hge ⊢
    cases hd : decodeMetadata cd with
    | error e =>
      rw [hd] at hmeta
      cases hmeta
    | ok scs =>
      dsimp only
      rw [if_pos hge]

theorem frameAt_ok_some {b : Backend} {name : String} {idx : Nat}
    (hmeta : metaOk b name = true) (hlt : idx < entriesOf b name) :
    ∃ fd, frameAt b name idx = .ok (some fd) := by
  unfold metaOk at hmeta
  unfold entriesOf at hlt
  unfold frameAt
  cases hb : alookup b.categories name with
  | none =>
    rw [hb] at hlt
    cases hlt
  | some cd =>
    rw [hb] at hmeta hlt
    dsimp only at hmeta hlt ⊢
    cases hd : decodeMetadata cd with
    | error e =>
      rw [hd] at hmeta
      cases hmeta
    | ok scs =>
      dsimp only
      rw [if_neg (Nat.not_le.mpr hlt)]
      obtain ⟨s, l, hseg⟩ := segOf_isSome_of_lt hlt
      rw [build_of_seg scs.length cd.idTable hseg]
      exact ⟨_, rfl⟩

theorem readNexts_spec (name : String) :
    ∀ (n : Nat) (r : ROOTReader), readerWF r = true → metaOk r.backend name = true →
      cursorOf r name ≤ entriesOf r.backend name →
      readerWF (readNexts r name n).2 = true ∧
      (readNexts r name n).2.backend = r.backend ∧
      cursorOf (readNexts r name n).2 name =
        min (cursorOf r name + n) (entriesOf r.backend name) ∧
      (cursorOf r name + n ≤ entriesOf r.backend name →
        ∀ res ∈ (readNexts r name n).1, ∃ fd, res = .ok (some fd)) := by
  intro n
  induction n with
  | zero =>
    intro r hwf hmeta hcur
    refine ⟨hwf, rfl, ?_, ?_⟩
    · show cursorOf r name = _
      omega
    · intro _ res hres
      simp [readNexts] at hres
  | succ n ih =>
    intro r hwf hmeta hcur
    obtain ⟨c1, c2, c3, c4, c5, c6⟩ := readNextEntry_correct name hwf
    simp only [readNexts]
    by_cases hlt : cursorOf r name < entriesOf r.backend name
    · obtain ⟨fd, hfd⟩ := frameAt_ok_some hmeta hlt
      have hres1 : (readNextEntry r name).1 = .ok (some fd) := by rw [c1, hfd]
      have hcur' : cursorOf (readNextEntry r name).2 name = cursorOf r name + 1 := by
        rw [c5, hres1]
      have hmeta' : metaOk (readNextEntry r name).2.backend name = true := by
        rw [c3]
        exact hmeta
      have hcur2 : cursorOf (readNextEntry r name).2 name ≤
          entriesOf (readNextEntry r name).2.backend name := by
        rw [c3, hcur']
        omega
      obtain ⟨i1, i2, i3, i4⟩ := ih (readNextEntry r name).2 c2 hmeta' hcur2
      rw [c3] at i2 i3
      refine ⟨i1, i2, ?_, ?_⟩
      · rw [i3, hcur']
        omega
      · intro hle res hres
        rcases List.mem_cons.mp hres with hres | hres
        · exact ⟨fd, by rw [hres, hres1]⟩
        · refine i4 ?_ res hres
          rw [c3, hcur']
          omega
    · have hfr : frameAt r.backend name (cursorOf r name) = .ok none :=
        frameAt_ok_none hmeta (by omega)
      have hres1 : (readNextEntry r name).1 = .ok none := c1.trans hfr
      have hcur' : cursorOf (readNextEntry r name).2 name = cursorOf r name := by
        rw [c5, hres1]
      have hmeta' : metaOk (readNextEntry r name).2.backend name = true := by
        rw [c3]
        exact hmeta
      have hcur2 : cursorOf (readNextEntry r name).2 name ≤
          entriesOf (readNextEntry r name).2.backend name := by
        rw [c3, hcur']
        omega
      obtain ⟨i1, i2, i3, i4⟩ := ih (readNextEntry r name).2 c2 hmeta' hcur2
      rw [c3] at i2 i3
      refine ⟨i1, i2, ?_, ?_⟩
      · rw [i3, hcur']
        omega
      · intro hle _ _
        exfalso
        omega

theorem openFiles_wf (files : List FileData) : readerWF (openFiles files) = true := rfl

theorem openFiles_cursor (files : List FileData) (name : String) :
    cursorOf (openFiles files) name = 0 := rfl

theorem readNexts_length (r : ROOTReader) (name : String) :
    ∀ n, ((readNexts r name n).1.length = n) := by
  intro n
  induction n generalizing r with
  | zero => rfl
  | succ n ih =>
    simp only [readNexts, List.length_cons]
    rw [ih]

end Podio





namespace Podio

/-- C1: for every category `C` with `N` entries, calling the sequential
read (`readNextEntry`) exactly `N` times returns `N` non-null frames, the
`(N+1)`-th call returns null, and the per-category cursor never advances
past `N`. -/
theorem claim_C1 (files : List FileData) (name : String)
    (hmeta : metaOk (openFiles files).backend name = true) :
    ((readNexts (openFiles files) name (getEntries (openFiles files) name)).1.length =
      getEntries (openFiles files) name) ∧
    (∀ res ∈ (readNexts (openFiles files) name (getEntries (openFiles files) name)).1,
      ∃ fd, res = .ok (some fd)) ∧
    ((readNextEntry
        (readNexts (openFiles files) name (getEntries (openFiles files) name)).2 name).1 =
      .ok none) ∧
    (∀ k, cursorOf (readNexts (openFiles files) name k).2 name ≤
      getEntries (openFiles files) name) := by
  have hwf := openFiles_wf files
  have hcur := openFiles_cursor files name
  have h0 : cursorOf (openFiles files) name ≤ entriesOf (openFiles files).backend name := by
    rw [hcur]
    exact Nat.zero_le _
  obtain ⟨w1, w2, w3, w4⟩ :=
    readNexts_spec name (getEntries (openFiles files) name) (openFiles files) hwf hmeta h0
  refine ⟨readNexts_length _ _ _, ?_, ?_, ?_⟩
  · refine w4 ?_
    rw [hcur]
    show 0 + getEntries (openFiles files) name ≤ getEntries (openFiles files) name
    omega
  · have hc : cursorOf (readNexts (openFiles files) name
        (getEntries (openFiles files) name)).2 name = getEntries (openFiles files) name := by
      rw [w3, hcur]
      show min (0 + getEntries (openFiles files) name) (getEntries (openFiles files) name) = _
      omega
    have hmeta' : metaOk (readNexts (openFiles files) name
        (getEntries (openFiles files) name)).2.backend name = true := by
      rw [w2]
      exact hmeta
    have hread := (readNextEntry_correct (r := (readNexts (openFiles files) name
        (getEntries (openFiles files) name)).2) name w1).1
    rw [hread, hc, w2]
    exact frameAt_ok_none hmeta (Nat.le_refl _)
  · intro k
    obtain ⟨_, _, v3, _⟩ :=
      readNexts_spec name k (openFiles files) hwf hmeta h0
    rw [v3, hcur]
    show min (0 + k) (getEntries (openFiles files) name) ≤ _
    omega

/-- Witness for C1 at a concrete single-file reader whose category
`events` holds three entries. -/
theorem claim_C1_witness :
    metaOk (openFiles [fileOne]).backend "events" = true ∧
    (((readNexts (openFiles [fileOne]) "events" (getEntries (openFiles [fileOne]) "events")).1.length =
        getEntries (openFiles [fileOne]) "events") ∧
      (∀ res ∈ (readNexts (openFiles [fileOne]) "events"
          (getEntries (openFiles [fileOne]) "events")).1, ∃ fd, res = .ok (some fd)) ∧
      ((readNextEntry
          (readNexts (openFiles [fileOne]) "events"
            (getEntries (openFiles [fileOne]) "events")).2 "events").1 = .ok none) ∧
      (∀ k, cursorOf (readNexts (openFiles [fileOne]) "events" k).2 "events" ≤
        getEntries (openFiles [fileOne]) "events")) :=
  ⟨by decide, claim_C1 [fileOne] "events" (by decide)⟩

end Podio

namespace Podio

theorem frameAt_unknown {b : Backend} {name : String} (idx : Nat)
    (hb : alookup b.categories name = none) : frameAt b name idx = .ok none := by
  unfold frameAt
  rw [hb]

theorem decode_length {cd : CategoryData} {scs : List CollectionDescriptor}
    (hd : decodeMetadata cd = .ok scs) : scs.length = cd.collNames.length := by
  unfold decodeMetadata at hd
  split at hd
  · cases hd
    simp
  · cases hd

theorem getCategoryInfo_other {r : ROOTReader} {name : String} {ci : CategoryInfo}
    {r' : ROOTReader} (h : getCategoryInfo r name = .ok (ci, r')) (d : String)
    (hd : d ≠ name) : alookup r'.m_categories d = alookup r.m_categories d := by
  unfold getCategoryInfo at h
  cases hm : alookup r.m_categories name with
  | some ci0 =>
    rw [hm] at h
    cases h
    rfl
  | none =>
    rw [hm] at h
    cases hb : alookup r.backend.categories name with
    | none =>
      rw [hb] at h
      cases h
      exact alookup_aset_ne _ _ hd
    | some cd =>
      rw [hb] at h
      dsimp only at h
      unfold initCategory at h
      cases hdec : decodeMetadata cd with
      | error e =>
        rw [hdec] at h
        cases h
      | ok scs =>
        rw [hdec] at h
        dsimp only at h
        cases h
        exact alookup_aset_ne _ _ hd

theorem finishRead_other (r : ROOTReader) (name : String) (ci : CategoryInfo) (idx : Nat)
    (d : String) (hd : d ≠ name) :
    alookup (finishRead r name ci idx).2.m_categories d = alookup r.m_categories d := by
  unfold finishRead
  cases hb : alookup r.backend.categories name with
  | none => rfl
  | some cd =>
    dsimp only
    by_cases hinit : ci.initialized = true
    · rw [if_pos hinit]
      exact alookup_aset_ne _ _ hd
    · rw [if_neg hinit]

theorem readNextEntry_cursor_mono (r : ROOTReader) (n d : String) :
    cursorOf r d ≤ cursorOf (readNextEntry r n).2 d := by
  by_cases hdn : d = n
  · subst hdn
    exact (readNextEntry_state r d).2.2.2
  · have h1 : alookup (readNextEntry r n).2.m_categories d = alookup r.m_categories d := by
      unfold readNextEntry
      cases hg : getCategoryInfo r n with
      | error e => rfl
      | ok p =>
        obtain ⟨ci, r'⟩ := p
        dsimp only
        exact (finishRead_other r' n ci ci.entry d hdn).trans (getCategoryInfo_other hg d hdn)
    unfold cursorOf
    rw [h1]

theorem applyNexts_mono (names : List String) :
    ∀ (r : ROOTReader) (d : String),
      cursorOf r d ≤ cursorOf (applyOps r (names.map ReadOp.nextOp)) d := by
  induction names with
  | nil => exact fun r d => Nat.le_refl _
  | cons n rest ih =>
    intro r d
    exact Nat.le_trans (readNextEntry_cursor_mono r n d) (ih (readNextEntry r n).2 d)

/-- C2: for every category `C` and valid index `k` with `k + 1 < N`, a
successful random-access `readEntry(C, k)` sets the category cursor to
`k + 1`, so that the next sequential `readNextEntry(C)` returns the frame
for entry `k + 1`. -/
theorem claim_C2 (r : ROOTReader) (name : String) (k : Nat)
    (hwf : readerWF r = true) (hmeta : metaOk r.backend name = true)
    (hk : k + 1 < getEntries r name) :
    (∃ fd, (readEntry r name k).1 = .ok (some fd)) ∧
    cursorOf (readEntry r name k).2 name = k + 1 ∧
    (readNextEntry (readEntry r name k).2 name).1 = frameAt r.backend name (k + 1) ∧
    (∃ gd, (readNextEntry (readEntry r name k).2 name).1 = .ok (some gd)) := by
  have hk' : k + 1 < entriesOf r.backend name := hk
  obtain ⟨c1, c2, c3, c4, c5, c6⟩ := readEntry_correct name k hwf
  obtain ⟨fd, hfd⟩ := frameAt_ok_some hmeta (show k < entriesOf r.backend name by omega)
  have hres : (readEntry r name k).1 = .ok (some fd) := by rw [c1, hfd]
  have hcur : cursorOf (readEntry r name k).2 name = k + 1 := by rw [c5, hres]
  obtain ⟨d1, _, _, _, _, _⟩ :=
    readNextEntry_correct (r := (readEntry r name k).2) name c2
  have hnext : (readNextEntry (readEntry r name k).2 name).1 =
      frameAt r.backend name (k + 1) := by
    rw [d1, hcur, c3]
  have hmeta2 : metaOk r.backend name = true := hmeta
  obtain ⟨gd, hgd⟩ := frameAt_ok_some hmeta2 hk'
  exact ⟨⟨fd, hres⟩, hcur, hnext, ⟨gd, by rw [hnext, hgd]⟩⟩

/-- Witness for C2: reading entry 0 of the three-entry category `events`
positions the cursor at 1 and the following sequential read is non-null. -/
theorem claim_C2_witness :
    (readerWF (openFiles [fileOne]) = true ∧
     metaOk (openFiles [fileOne]).backend "events" = true ∧
     0 + 1 < getEntries (openFiles [fileOne]) "events") ∧
    ((∃ fd, (readEntry (openFiles [fileOne]) "events" 0).1 = .ok (some fd)) ∧
     cursorOf (readEntry (openFiles [fileOne]) "events" 0).2 "events" = 0 + 1 ∧
     (readNextEntry (readEntry (openFiles [fileOne]) "events" 0).2 "events").1 =
       frameAt (openFiles [fileOne]).backend "events" (0 + 1) ∧
     (∃ gd, (readNextEntry (readEntry (openFiles [fileOne]) "events" 0).2 "events").1 =
       .ok (some gd))) :=
  ⟨⟨by decide, by decide, by decide⟩,
   claim_C2 (openFiles [fileOne]) "events" 0 (by decide) (by decide) (by decide)⟩

/-- C3: for every category, `readNextEntry` is equivalent to building the
frame at the current cursor value, and the cursor is incremented by one
exactly when the build succeeds; a read that errors or hits end-of-data
leaves the cursor unchanged. -/
theorem claim_C3 (r : ROOTReader) (name : String) (hwf : readerWF r = true) :
    (readNextEntry r name).1 = frameAt r.backend name (cursorOf r name) ∧
    cursorOf (readNextEntry r name).2 name =
      (match (readNextEntry r name).1 with
       | .ok (some _) => cursorOf r name + 1
       | _ => cursorOf r name) := by
  obtain ⟨c1, _, _, _, c5, _⟩ := readNextEntry_correct name hwf
  exact ⟨c1, c5⟩

/-- Witness for C3 at a concrete freshly opened reader. -/
theorem claim_C3_witness :
    readerWF (openFiles [fileOne]) = true ∧
    ((readNextEntry (openFiles [fileOne]) "events").1 =
      frameAt (openFiles [fileOne]).backend "events" (cursorOf (openFiles [fileOne]) "events") ∧
     cursorOf (readNextEntry (openFiles [fileOne]) "events").2 "events" =
      (match (readNextEntry (openFiles [fileOne]) "events").1 with
       | .ok (some _) => cursorOf (openFiles [fileOne]) "events" + 1
       | _ => cursorOf (openFiles [fileOne]) "events")) :=
  ⟨by decide, claim_C3 (openFiles [fileOne]) "events" (by decide)⟩

/-- C4: a read request for a name with no data, or for an index at or past
the number of available entries, returns a null result rather than an
error, and an unknown category is signaled exactly like end-of-data. -/
theorem claim_C4 (r : ROOTReader) (nameU nameK : String) (k : Nat)
    (hwf : readerWF r = true)
    (hU : alookup r.backend.categories nameU = none)
    (hmeta : metaOk r.backend nameK = true)
    (hk : getEntries r nameK ≤ k)
    (hc : getEntries r nameK ≤ cursorOf r nameK) :
    (readNextEntry r nameU).1 = .ok none ∧
    (readEntry r nameU k).1 = .ok none ∧
    (readEntry r nameK k).1 = .ok none ∧
    (readNextEntry r nameK).1 = .ok none ∧
    (readNextEntry r nameU).1 = (readEntry r nameK k).1 := by
  have h1 : (readNextEntry r nameU).1 = .ok none := by
    rw [(readNextEntry_correct nameU hwf).1]
    exact frameAt_unknown _ hU
  have h2 : (readEntry r nameU k).1 = .ok none := by
    rw [(readEntry_correct nameU k hwf).1]
    exact frameAt_unknown _ hU
  have h3 : (readEntry r nameK k).1 = .ok none := by
    rw [(readEntry_correct nameK k hwf).1]
    exact frameAt_ok_none hmeta hk
  have h4 : (readNextEntry r nameK).1 = .ok none := by
    rw [(readNextEntry_correct nameK hwf).1]
    exact frameAt_ok_none hmeta hc
  exact ⟨h1, h2, h3, h4, h1.trans h3.symm⟩

/-- Witness for C4: an absent name and the zero-entry category `empty`. -/
theorem claim_C4_witness :
    (readerWF (openFiles [fileOne]) = true ∧
     alookup (openFiles [fileOne]).backend.categories "nosuch" = none ∧
     metaOk (openFiles [fileOne]).backend "empty" = true ∧
     getEntries (openFiles [fileOne]) "empty" ≤ 0 ∧
     getEntries (openFiles [fileOne]) "empty" ≤ cursorOf (openFiles [fileOne]) "empty") ∧
    ((readNextEntry (openFiles [fileOne]) "nosuch").1 = .ok none ∧
     (readEntry (openFiles [fileOne]) "nosuch" 0).1 = .ok none ∧
     (readEntry (openFiles [fileOne]) "empty" 0).1 = .ok none ∧
     (readNextEntry (openFiles [fileOne]) "empty").1 = .ok none ∧
     (readNextEntry (openFiles [fileOne]) "nosuch").1 =
       (readEntry (openFiles [fileOne]) "empty" 0).1) :=
  ⟨⟨by decide, by decide, by decide, by decide, by decide⟩,
   claim_C4 (openFiles [fileOne]) "nosuch" "empty" 0
     (by decide) (by decide) (by decide) (by decide) (by decide)⟩

end Podio

namespace Podio

/-- C5: when multiple files are opened and a category spans two chained
segments with `N1` and `N2` entries, `getEntries` returns `N1 + N2`, and
reading entry index `N1` returns the first entry of the second segment. -/
theorem claim_C5 (files : List FileData) (name : String) (cd : CategoryData)
    (s1 s2 : Segment) (e : EntryData) (rest : List EntryData)
    (hcd : alookup (openFiles files).backend.categories name = some cd)
    (hsegs : cd.segments = [s1, s2])
    (hs2 : s2.entries = e :: rest)
    (hmeta : metaOk (openFiles files).backend name = true) :
    getEntries (openFiles files) name = s1.entries.length + s2.entries.length ∧
    (readEntry (openFiles files) name s1.entries.length).1 =
      .ok (some { buffers := (List.range cd.collNames.length).map
                    (fun i => e.buffers.getD i [])
                  parameters := e.params
                  table := cd.idTable }) := by
  have hwf := openFiles_wf files
  have hcount : entryCount cd = s1.entries.length + s2.entries.length := by
    unfold entryCount
    rw [hsegs]
    simp
  have hget : getEntries (openFiles files) name = entryCount cd := by
    unfold getEntries entriesOf
    rw [hcd]
  have hseg : segOf cd.segments s1.entries.length = some (1, 0) := by
    rw [hsegs]
    simp [segOf, hs2]
  cases hd : decodeMetadata cd with
  | error err =>
    exfalso
    unfold metaOk at hmeta
    rw [hcd] at hmeta
    dsimp only at hmeta
    rw [hd] at hmeta
    cases hmeta
  | ok scs =>
    have hlen : scs.length = cd.collNames.length := decode_length hd
    have hnotle : ¬(entryCount cd ≤ s1.entries.length) := by
      rw [hcount, hs2]
      simp
    have hbuf : ∀ i, readBuffer cd (resolveBranch 1 i) 0 = e.buffers.getD i [] := by
      intro i
      unfold readBuffer resolveBranch
      rw [hsegs]
      simp [hs2, List.getD_cons_zero, List.getD_cons_succ]
    have hpar : readEntryParameters cd 1 0 = e.params := by
      unfold readEntryParameters
      rw [hsegs]
      simp [hs2, List.getD_cons_zero, List.getD_cons_succ]
    have hframe : frameAt (openFiles files).backend name s1.entries.length =
        .ok (some { buffers := (List.range cd.collNames.length).map
                      (fun i => e.buffers.getD i [])
                    parameters := e.params
                    table := cd.idTable }) := by
      unfold frameAt
      rw [hcd]
      dsimp only
      rw [hd]
      dsimp only
      rw [if_neg hnotle]
      rw [build_of_seg scs.length cd.idTable hseg]
      rw [hlen, hpar]
      simp only [hbuf]
    refine ⟨by rw [hget, hcount], ?_⟩
    rw [(readEntry_correct name s1.entries.length hwf).1, hframe]

/-- Witness for C5: two chained files with 3 and 2 entries; entry 3 is the
first entry of the second file. -/
theorem claim_C5_witness :
    (alookup (openFiles [fileOne, fileTwo]).backend.categories "events" = some eventsChained ∧
     eventsChained.segments = [{ entries := [mkEntry 0, mkEntry 1, mkEntry 2] },
                               { entries := [mkEntry 3, mkEntry 4] }] ∧
     ({ entries := [mkEntry 3, mkEntry 4] } : Segment).entries = mkEntry 3 :: [mkEntry 4] ∧
     metaOk (openFiles [fileOne, fileTwo]).backend "events" = true) ∧
    (getEntries (openFiles [fileOne, fileTwo]) "events" =
      ({ entries := [mkEntry 0, mkEntry 1, mkEntry 2] } : Segment).entries.length +
        ({ entries := [mkEntry 3, mkEntry 4] } : Segment).entries.length ∧
     (readEntry (openFiles [fileOne, fileTwo]) "events"
        ({ entries := [mkEntry 0, mkEntry 1, mkEntry 2] } : Segment).entries.length).1 =
      .ok (some { buffers := (List.range eventsChained.collNames.length).map
                    (fun i => (mkEntry 3).buffers.getD i [])
                  parameters := (mkEntry 3).params
                  table := eventsChained.idTable })) :=
  ⟨⟨by decide, by decide, by decide, by decide⟩,
   claim_C5 [fileOne, fileTwo] "events" eventsChained
     { entries := [mkEntry 0, mkEntry 1, mkEntry 2] }
     { entries := [mkEntry 3, mkEntry 4] }
     (mkEntry 3) [mkEntry 4]
     (by decide) (by decide) (by decide) (by decide)⟩

/-- C6: metadata decoding fails with `MetadataInconsistency` when the
number of declared collections does not match the number of declared
schema versions or subset flags; such a failure aborts reads for that
category and leaves the state of every category binding unchanged. -/
theorem claim_C6 (r : ROOTReader) (name : String) (cd : CategoryData) (k : Nat)
    (hcd : alookup r.backend.categories name = some cd)
    (hbad : ¬(cd.collNames.length = cd.schemaVersions.length ∧
              cd.collNames.length = cd.subsetFlags.length))
    (hnew : alookup r.m_categories name = none) :
    decodeMetadata cd = .error .MetadataInconsistency ∧
    (readNextEntry r name).1 = .error .MetadataInconsistency ∧
    (readNextEntry r name).2 = r ∧
    (readEntry r name k).1 = .error .MetadataInconsistency ∧
    (readEntry r name k).2 = r ∧
    (∀ d, alookup (readNextEntry r name).2.m_categories d = alookup r.m_categories d) := by
  have hdec : decodeMetadata cd = .error .MetadataInconsistency := by
    unfold decodeMetadata
    rw [if_neg hbad]
  have hg : getCategoryInfo r name = .error .MetadataInconsistency := by
    unfold getCategoryInfo
    rw [hnew]
    dsimp only
    rw [hcd]
    dsimp only
    unfold initCategory
    rw [hdec]
  have hnext : readNextEntry r name = (.error .MetadataInconsistency, r) := by
    unfold readNextEntry
    rw [hg]
  have hrand : readEntry r name k = (.error .MetadataInconsistency, r) := by
    unfold readEntry
    rw [hg]
  refine ⟨hdec, by rw [hnext], by rw [hnext], by rw [hrand], by rw [hrand], ?_⟩
  intro d
  rw [hnext]

/-- Witness for C6: a file whose category `broken` declares two
collections but one schema version and one subset flag. -/
theorem claim_C6_witness :
    (alookup (openFiles [badFile]).backend.categories "broken" =
       some { segments := [{ entries := [mkEntry 9] }]
              collNames := ["a", "b"]
              subsetFlags := [false]
              schemaVersions := [7]
              idTable := [] } ∧
     ¬(["a", "b"].length = [7].length ∧ ["a", "b"].length = [false].length) ∧
     alookup (openFiles [badFile]).m_categories "broken" = none) ∧
    (decodeMetadata { segments := [{ entries := [mkEntry 9] }]
                      collNames := ["a", "b"]
                      subsetFlags := [false]
                      schemaVersions := [7]
                      idTable := [] } = .error .MetadataInconsistency ∧
     (readNextEntry (openFiles [badFile]) "broken").1 = .error .MetadataInconsistency ∧
     (readNextEntry (openFiles [badFile]) "broken").2 = openFiles [badFile] ∧
     (readEntry (openFiles [badFile]) "broken" 0).1 = .error .MetadataInconsistency ∧
     (readEntry (openFiles [badFile]) "broken" 0).2 = openFiles [badFile] ∧
     (∀ d, alookup (readNextEntry (openFiles [badFile]) "broken").2.m_categories d =
        alookup (openFiles [badFile]).m_categories d)) :=
  ⟨⟨by decide, by decide, by decide⟩,
   claim_C6 (openFiles [badFile]) "broken"
     { segments := [{ entries := [mkEntry 9] }]
       collNames := ["a", "b"]
       subsetFlags := [false]
       schemaVersions := [7]
       idTable := [] } 0
     (by decide) (by decide) (by decide)⟩

/-- C7: two invocations of `readEntry(C, k)` yield bit-identical results
(buffers, parameters and table), even when an arbitrary sequence of other
reads, possibly crossing file-segment boundaries and re-resolving cached
branch handles, happens in between. -/
theorem claim_C7 (r : ROOTReader) (name : String) (k : Nat) (ops : List ReadOp)
    (hwf : readerWF r = true) :
    (readEntry (applyOps (readEntry r name k).2 ops) name k).1 =
      (readEntry r name k).1 := by
  obtain ⟨c1, c2, c3, _, _, _⟩ := readEntry_correct name k hwf
  have hwf2 : readerWF (applyOps (readEntry r name k).2 ops) = true :=
    applyOps_wf ops _ c2
  obtain ⟨d1, _, _, _, _, _⟩ :=
    readEntry_correct (r := applyOps (readEntry r name k).2 ops) name k hwf2
  rw [d1, c1]
  rw [(applyOps_state ops (readEntry r name k).2).1, c3]

/-- Witness for C7: re-reading entry 0 (first segment) after a read of
entry 3 (second segment) that re-resolves the branch cache. -/
theorem claim_C7_witness :
    readerWF (openFiles [fileOne, fileTwo]) = true ∧
    (readEntry (applyOps (readEntry (openFiles [fileOne, fileTwo]) "events" 0).2
        [ReadOp.atOp "events" 3]) "events" 0).1 =
      (readEntry (openFiles [fileOne, fileTwo]) "events" 0).1 :=
  ⟨by decide,
   claim_C7 (openFiles [fileOne, fileTwo]) "events" 0 [ReadOp.atOp "events" 3] (by decide)⟩

/-- C8: the first access for a category name matching no tree in the
backend yields a `CategoryInfo` marked uninitialized, with no entries and
no collections, instead of failing; the state is registered, and a
subsequent access for the same name returns the same state and reader. -/
theorem claim_C8 (r : ROOTReader) (name : String)
    (hb : alookup r.backend.categories name = none)
    (hm : alookup r.m_categories name = none) :
    ∃ r', getCategoryInfo r name = .ok (uninitCategory, r') ∧
      uninitCategory.initialized = false ∧
      uninitCategory.storedClasses = [] ∧
      uninitCategory.entry = 0 ∧
      getEntries r name = 0 ∧
      alookup r'.m_categories name = some uninitCategory ∧
      getCategoryInfo r' name = .ok (uninitCategory, r') := by
  refine ⟨{ r with m_categories := aset r.m_categories name uninitCategory },
    ?_, rfl, rfl, rfl, ?_, alookup_aset_self _ _ _, ?_⟩
  · unfold getCategoryInfo
    rw [hm]
    dsimp only
    rw [hb]
  · unfold getEntries entriesOf
    rw [hb]
  · unfold getCategoryInfo
    rw [alookup_aset_self]

/-- Witness for C8: probing an absent category on a freshly opened
reader. -/
theorem claim_C8_witness :
    (alookup (openFiles [fileOne]).backend.categories "nosuch" = none ∧
     alookup (openFiles [fileOne]).m_categories "nosuch" = none) ∧
    (∃ r', getCategoryInfo (openFiles [fileOne]) "nosuch" = .ok (uninitCategory, r') ∧
      uninitCategory.initialized = false ∧
      uninitCategory.storedClasses = [] ∧
      uninitCategory.entry = 0 ∧
      getEntries (openFiles [fileOne]) "nosuch" = 0 ∧
      alookup r'.m_categories "nosuch" = some uninitCategory ∧
      getCategoryInfo r' "nosuch" = .ok (uninitCategory, r')) :=
  ⟨⟨by decide, by decide⟩,
   claim_C8 (openFiles [fileOne]) "nosuch" (by decide) (by decide)⟩

end Podio

namespace Podio

theorem readEntry_cursor_cases (r : ROOTReader) (name : String) (k : Nat) :
    cursorOf (readEntry r name k).2 name = cursorOf r name ∨
    cursorOf (readEntry r name k).2 name = k + 1 := by
  unfold readEntry
  cases hg : getCategoryInfo r name with
  | error e => exact Or.inl rfl
  | ok p =>
    obtain ⟨ci, r'⟩ := p
    obtain ⟨_, _, _, hmem', hentry⟩ := getCategoryInfo_basic hg
    dsimp only
    rcases finishRead_cursor (r := r') k hmem' with h | h
    · exact Or.inl (by rw [h, hentry])
    · exact Or.inr h

/-- Counterexample to C9 as stated: after two sequential reads of the
three-entry category `events` the cursor is 2; a subsequent random-access
`readEntry` of entry 0 succeeds and sets the cursor to 1, strictly
decreasing it. -/
theorem claim_C9_counterexample :
    cursorOf (readEntry (readNexts (openFiles [fileOne]) "events" 2).2 "events" 0).2 "events" <
      cursorOf (readNexts (openFiles [fileOne]) "events" 2).2 "events" := by decide

/-- C9 (amended): the per-category cursor is 0-based, and no sequence of
sequential reads (`readNextEntry`) ever decreases it; a random-access
`readEntry(C, k)` either leaves the cursor unchanged or sets it to
`k + 1`, which may be smaller than its previous value. -/
theorem claim_C9_amended (files : List FileData) (r : ROOTReader) (name : String)
    (names : List String) (k : Nat) :
    cursorOf (openFiles files) name = 0 ∧
    cursorOf r name ≤ cursorOf (readNextEntry r name).2 name ∧
    cursorOf r name ≤ cursorOf (applyOps r (names.map ReadOp.nextOp)) name ∧
    (cursorOf (readEntry r name k).2 name = cursorOf r name ∨
     cursorOf (readEntry r name k).2 name = k + 1) :=
  ⟨openFiles_cursor files name, (readNextEntry_state r name).2.2.2,
   applyNexts_mono names r name, readEntry_cursor_cases r name k⟩

/-- C10: before any file, file list or TDirectory has been opened,
`currentFileVersion` returns the version (0, 0, 0); opening files records
the first file's version, and no sequence of reads ever changes the
recorded version afterwards. -/
theorem claim_C10 (f : FileData) (fs : List FileData) (r : ROOTReader)
    (ops : List ReadOp) :
    currentFileVersion ROOTReader.init = ⟨0, 0, 0⟩ ∧
    currentFileVersion (openFiles (f :: fs)) = f.fileVersion ∧
    currentFileVersion (applyOps r ops) = currentFileVersion r :=
  ⟨rfl, rfl, (applyOps_state ops r).2.1⟩

end Podio
